import Mathlib

/-!
Verification development for the object-sync storage core of the
edge-sync-service repository.

The Go sources are shallowly embedded as pure Lean functions:

* Go byte slices become `List Nat` (`Bytes`); byte values are opaque here,
  no arithmetic on them occurs in the verified operations.
* Go maps (`map[int64][]byte`, the `openFiles` map) become association
  lists with unique keys; `mapLookup`, `mapInsert` and `mapErase` give the
  usual map semantics (insert replaces the entry with the same key).
* The MongoDB collections become in-memory lists of documents; the
  `$currentDate` server timestamp on the `last-update` token is modelled
  as a bump of a natural-number token, and conditional updates filter on
  the document id and, where the source does, on that token.
* `int64` offsets and sizes become `Nat`: the verified operations only
  ever produce non-negative offsets (byte positions) and overflow is
  unreachable for them.  Other numeric document fields keep `Int`.
* Time.  `time.Now()` is passed in as an explicit parameter.  An RFC3339
  expiration string is modelled as `Option Nat`: `none` is the empty
  string and `some t` is the RFC3339 rendering of the timestamp `t`
  (the rendering is injective, so the timestamp is a faithful image).
* Fallible operations return `Except`; error values are constructor tags,
  the formatted Go error strings are dropped.  I/O failures of the
  underlying database or file system (write errors, broken connections)
  are outside the model: the embedded operations describe the behaviour
  of the code when the backend performs its primitive operations
  successfully, which is what the specification describes as well.
-/

namespace EdgeSync

/-- Byte sequences; a Go byte slice is a list of natural numbers. -/
abbrev Bytes := List Nat

/-- Lookup in an association-list model of a Go map. -/
def mapLookup {κ α : Type} [DecidableEq κ] (k : κ) : List (κ × α) → Option α
  | [] => none
  | (k2, v) :: rest => if k2 = k then some v else mapLookup k rest

/-- Deletion in an association-list model of a Go map (Go `delete`). -/
def mapErase {κ α : Type} [DecidableEq κ] (k : κ) : List (κ × α) → List (κ × α)
  | [] => []
  | (k2, v) :: rest => if k2 = k then rest else (k2, v) :: mapErase k rest

/-- Insertion in an association-list model of a Go map (`m[k] = v`):
replaces the entry with the same key, otherwise appends. -/
def mapInsert {κ α : Type} [DecidableEq κ] (k : κ) (v : α) : List (κ × α) → List (κ × α)
  | [] => [(k, v)]
  | (k2, v2) :: rest => if k2 = k then (k, v) :: rest else (k2, v2) :: mapInsert k v rest

/-! ## Chunked upload (MongoStorage.AppendObjectData, payload side)

`fileHandle` carries the GridFS file being written (its bytes written so
far), the running sequential offset, and the out-of-order reassembly map
`chunks : map[int64][]byte`.  A Go `nil` map and an empty map behave
identically for lookup and `len`, and the source allocates before any
assignment, so both are the empty association list here. -/

/-- Out-of-order chunk buffer of one open upload: offset-keyed byte slices. -/
abbrev ChunkMap := List (Nat × Bytes)

/-- In-memory image of the `fileHandle` struct: bytes written to the
GridFS file so far, the sequential `offset`, and the `chunks` map. -/
structure FileHandle where
  contents : Bytes
  offset : Nat
  chunks : ChunkMap
deriving DecidableEq

/-- Errors of the append path. `discarded` is the `Discarded` error type,
`handleMissing` the error returned when no open handle exists for the key. -/
inductive AppendErr
  | discarded
  | handleMissing
deriving DecidableEq

/-- The write-and-drain loop of `AppendObjectData` in the
`offset == fileHandle.offset` branch: write `data` at the current offset,
advance the offset by the bytes written, then repeatedly pull from the
out-of-order map the chunk stored at the new offset, delete it from the
map and write it too, until no chunk is stored at the current offset.
Every iteration deletes one map entry, so the iteration count is bounded
by the map size; the loop carries that bound as structural fuel, and the
zero-fuel case coincides with the empty-map exit of the loop
(`drainChunks_eq` below recovers the untruncated loop equation). -/
def drainChunksAux : Nat → Bytes → Nat → ChunkMap → Bytes → Bytes × Nat × ChunkMap
  | 0, contents, offset, m, data => (contents ++ data, offset + data.length, m)
  | fuel + 1, contents, offset, m, data =>
    match mapLookup (offset + data.length) m with
    | none => (contents ++ data, offset + data.length, m)
    | some d2 =>
      drainChunksAux fuel (contents ++ data) (offset + data.length)
        (mapErase (offset + data.length) m) d2

/-- The drain loop at its entry point. -/
def drainChunks (contents : Bytes) (offset : Nat) (m : ChunkMap) (data : Bytes) :
    Bytes × Nat × ChunkMap :=
  drainChunksAux m.length contents offset m data

/-- One chunk arriving at an open handle (the core of
`MongoStorage.AppendObjectData` after the handle has been obtained):
if the chunk is at the sequential offset it is written and the buffer is
drained; otherwise, when the out-of-order map already holds more than 100
entries the chunk is discarded with a `Discarded` error (the map is left
as it was, since the error return precedes the map assignment), and
otherwise the chunk is stored in the map under its offset. -/
def appendChunkToHandle (fh : FileHandle) (data : Bytes) (offset : Nat) :
    Except AppendErr FileHandle :=
  if offset = fh.offset then
    let r := drainChunks fh.contents fh.offset fh.chunks data
    .ok ⟨r.1, r.2.1, r.2.2⟩
  else if 100 < fh.chunks.length then
    .error .discarded
  else
    .ok { fh with chunks := mapInsert offset data fh.chunks }

/-- Folding a list of `(offset, data)` chunks through one open handle. -/
def runCallsOnHandle : FileHandle → List (Nat × Bytes) → Except AppendErr FileHandle
  | fh, [] => .ok fh
  | fh, (o, d) :: rest =>
    match appendChunkToHandle fh d o with
    | .error e => .error e
    | .ok fh2 => runCallsOnHandle fh2 rest

/-- The out-of-order window stays at no more than 100 resident entries
at every state along a run of chunks through a handle. -/
def windowOkB : FileHandle → List (Nat × Bytes) → Bool
  | fh, [] => decide (fh.chunks.length ≤ 100)
  | fh, (o, d) :: rest =>
    decide (fh.chunks.length ≤ 100) &&
      (match appendChunkToHandle fh d o with
       | .error _ => true
       | .ok fh2 => windowOkB fh2 rest)

/-- The chunk sequence of a partition of a blob into pieces, in
sequential offset order starting at byte `start`. -/
def seqChunks (start : Nat) : List Bytes → List (Nat × Bytes)
  | [] => []
  | p :: ps => (start, p) :: seqChunks (start + p.length) ps

/-! ## Document model (metadata store) -/

/-- Modelled from the spec: the status constants of the `common` package,
which is outside the core sources.  They are opaque distinct string tags;
the scenario values of the spec (for example "ready", "consumed") fix the
ones it shows.  `consumedStatus` doubles as destination status and
notification status, as `common.Consumed` does. -/
def notReadyToSend : String := "notReady"

/-- Modelled from the spec: the ReadyToSend object status tag. -/
def readyToSend : String := "ready"

/-- Modelled from the spec: the Consumed status tag. -/
def consumedStatus : String := "consumed"

/-- Modelled from the spec: the Error destination status tag. -/
def errorStatus : String := "error"

/-- Modelled from the spec: the Pending destination status tag. -/
def pendingStatus : String := "pending"

/-- Modelled from the spec: the Delivering destination status tag. -/
def deliveringStatus : String := "delivering"

/-- Modelled from the spec: the Update notification status tag. -/
def updateStatus : String := "update"

/-- Modelled from the spec: the Received notification status tag. -/
def receivedStatus : String := "received"

/-- Modelled from the spec: the Getdata notification status tag. -/
def getdataStatus : String := "getdata"

/-- Modelled from the spec: the Data notification status tag. -/
def dataStatus : String := "data"

/-- Modelled from the spec: the Delete notification status tag. -/
def deleteStatus : String := "delete"

/-- Modelled from the spec: the Deleted notification status tag. -/
def deletedStatus : String := "deleted"

/-- Modelled from the spec: the ReceivedByDestination notification status tag. -/
def receivedByDestination : String := "receivedByDest"

/-- Modelled from the spec: `createObjectCollectionID` lives outside the
given sources; the spec fixes the composite key as
`orgID ":" objectType ":" objectID`. -/
def createObjectCollectionID (orgID objectType objectID : String) : String :=
  orgID ++ ":" ++ objectType ++ ":" ++ objectID

/-- A destination document (the fields the verified operations read). -/
structure Destination where
  destOrgID : String
  destType : String
  destID : String
  communication : String
deriving DecidableEq

/-- A per-destination delivery entry embedded in an object document. -/
structure StoreDestinationStatus where
  destination : Destination
  status : String
  message : String
deriving DecidableEq

/-- Object metadata; only the fields the verified operations touch are
kept, the remaining `common.MetaData` fields are never read or written by
them.  `expiration = none` is the empty expiration string, `some t` the
RFC3339 rendering of timestamp `t` (seconds). -/
structure MetaData where
  destOrgID : String
  objectType : String
  objectID : String
  destType : String
  destID : String
  expectedConsumers : Int
  autoDelete : Bool
  metaOnly : Bool
  noData : Bool
  expiration : Option Nat
  instanceID : Int
  objectSize : Int
deriving DecidableEq

/-- An object document of the `objects` collection. -/
structure Object where
  id : String
  metaData : MetaData
  status : String
  remainingConsumers : Int
  remainingReceivers : Int
  destinations : List StoreDestinationStatus
  lastUpdate : Nat
deriving DecidableEq

/-- A notification document (the embedded `common.Notification` fields the
verified query reads). -/
structure Notification where
  destOrgID : String
  destID : String
  destType : String
  objectType : String
  objectID : String
  status : String
  instanceID : Int
  resendTime : Int
deriving DecidableEq

/-- The leader-election singleton document (`_id = 1`). -/
structure LeaderDoc where
  uuid : String
  lastHeartbeatTS : Nat
  heartbeatTimeout : Int
  version : Int
deriving DecidableEq

/-- Errors of the metadata-store operations. -/
inductive StoreErr
  | notFound
  | destinationMissing
deriving DecidableEq

/-- The process state the verified operations touch: the `objects`
collection, the published payload blobs (GridFS files keyed by object id,
visible once closed), and the in-memory `openFiles` handle map. -/
structure StorageState where
  objects : List Object
  files : List (String × Bytes)
  openFiles : List (String × FileHandle)
deriving DecidableEq

/-- `fetchOne` on the `objects` collection with an `_id` filter. -/
def fetchObject (id : String) : List Object → Option Object
  | [] => none
  | o :: rest => if o.id = id then some o else fetchObject id rest

/-- An unconditional `update` with filter `{_id: id}` on the `objects`
collection, applied to the matching document. -/
def updateObjectsById (id : String) (f : Object → Object) (db : List Object) : List Object :=
  db.map fun o => if o.id = id then f o else o

/-- Upsert of a full object document with filter `{_id}` as the spec
describes it: replace the matching document, otherwise insert.  The
`last-update` token is supplied by the persistence layer; replacing
bumps the stored token. -/
def upsertObject (newObj : Object) : List Object → List Object
  | [] => [newObj]
  | o :: rest =>
    if o.id = newObj.id then { newObj with lastUpdate := o.lastUpdate + 1 } :: rest
    else o :: upsertObject newObj rest

/-! ## MongoStorage.AppendObjectData, store level

`createFile`, `getFileHandle`, `putFileHandle`, `deleteFileHandle` and
`removeFile` are repository helpers outside the given sources.  Modelled
from the spec: the handle map `openFiles : ObjKey → FileHandle` is a Go
map with pointer-level insert, lookup and delete; `createFile` opens a
fresh staging blob with `offset = 0` and a nil chunk map; `removeFile`
deletes the published blob for the key (idempotent); closing the staging
blob publishes it under the key. -/

/-- Chunked upload entry point, mirroring the source: on `isFirstChunk`
delete any existing payload and create a fresh handle, otherwise fetch
the open handle and fail if absent; feed the chunk to the handle; on
`isLastChunk` evict the handle from `openFiles` and close the file, which
publishes the accumulated bytes; otherwise put the handle back. -/
def appendObjectData (st : StorageState) (id : String) (data : Bytes) (offset : Nat)
    (isFirstChunk isLastChunk : Bool) : Except AppendErr StorageState :=
  let st0 := if isFirstChunk then { st with files := mapErase id st.files } else st
  match (if isFirstChunk then some ⟨[], 0, []⟩ else mapLookup id st.openFiles) with
  | none => .error .handleMissing
  | some fh =>
    match appendChunkToHandle fh data offset with
    | .error e => .error e
    | .ok fh2 =>
      if isLastChunk then
        .ok { st0 with openFiles := mapErase id st0.openFiles,
                       files := mapInsert id fh2.contents st0.files }
      else
        .ok { st0 with openFiles := mapInsert id fh2 st0.openFiles }

/-- Driving a whole upload: the first call carries `isFirstChunk`, the
final call carries `isLastChunk`. -/
def runAppendAux (id : String) : StorageState → Bool → List (Nat × Bytes) →
    Except AppendErr StorageState
  | st, _, [] => .ok st
  | st, first, (o, d) :: rest =>
    match appendObjectData st id d o first rest.isEmpty with
    | .error e => .error e
    | .ok st2 => runAppendAux id st2 false rest

/-- A whole upload of the given `(offset, data)` chunk sequence. -/
def runAppendCalls (st : StorageState) (id : String) (calls : List (Nat × Bytes)) :
    Except AppendErr StorageState :=
  runAppendAux id st true calls

/-! ## MongoStorage.UpdateObjectDeliveryStatus -/

/-- The destination-scan loop of `UpdateObjectDeliveryStatus`: walk the
destinations, update the first entry matching the `(destType, destID)`
pair (its message when the call carries one or the entry was in `Error`,
its status when the call carries one), and record in `allConsumed`
whether every entry other than that first match is `Consumed`.
Returns the rewritten list, the `found` flag and the `allConsumed` flag. -/
def updateDestsLoop (status message destType destID : String) :
    List StoreDestinationStatus → Bool → Bool →
    List StoreDestinationStatus × Bool × Bool
  | [], found, allConsumed => ([], found, allConsumed)
  | d :: rest, found, allConsumed =>
    if found = false ∧ d.destination.destType = destType ∧ d.destination.destID = destID then
      let d2 : StoreDestinationStatus :=
        { d with
          message := if message ≠ "" ∨ d.status = errorStatus then message else d.message,
          status := if status ≠ "" then status else d.status }
      let r := updateDestsLoop status message destType destID rest true allConsumed
      (d2 :: r.1, r.2.1, r.2.2)
    else
      let r := updateDestsLoop status message destType destID rest found
        (allConsumed && (d.status == consumedStatus))
      (d :: r.1, r.2.1, r.2.2)

/-- `MongoStorage.UpdateObjectDeliveryStatus`: empty status and message
return immediately; otherwise fetch the object, rewrite its destinations,
fail when no destination matched, and write the destinations back guarded
by the fetched `last-update` token, additionally setting
`metadata.expiration` to now plus one hour when the object has
`autoDelete`, the new status is `Consumed`, every other destination was
already `Consumed` and no expiration was set.  The optimistic retry loop
(`maxUpdateTries`) collapses to its first iteration in this sequential
model: the token cannot change between the fetch and the guarded update. -/
def updateObjectDeliveryStatus (now : Nat)
    (status message orgID objectType objectID destType destID : String)
    (db : List Object) : Except StoreErr (List Object) :=
  if status = "" ∧ message = "" then .ok db
  else
    let id := createObjectCollectionID orgID objectType objectID
    match fetchObject id db with
    | none => .error .notFound
    | some obj =>
      let r := updateDestsLoop status message destType destID obj.destinations false true
      if r.2.1 = false then .error .destinationMissing
      else
        let newMeta :=
          if obj.metaData.autoDelete = true ∧ status = consumedStatus ∧ r.2.2 = true ∧
              obj.metaData.expiration = none then
            { obj.metaData with expiration := some (now + 3600) }
          else obj.metaData
        .ok (db.map fun o =>
          if o.id = id ∧ o.lastUpdate = obj.lastUpdate then
            { o with destinations := r.1, metaData := newMeta, lastUpdate := o.lastUpdate + 1 }
          else o)

/-! ## MongoStorage.StoreObject, StoreObjectData, ResetObjectRemainingConsumers -/

/-- Modelled from the spec: `createDestinations` lives outside the given
sources; the spec computes the initial destinations from the destinations
directory, matching the metadata org and filtered by `DestType` and
`DestID` when non-empty, each entry starting at status `Pending`. -/
def createDestinations (table : List Destination) (md : MetaData) :
    List StoreDestinationStatus :=
  (table.filter fun d =>
      d.destOrgID == md.destOrgID
        && (md.destType == "" || d.destType == md.destType)
        && (md.destID == "" || d.destID == md.destID)).map
    fun d => ⟨d, pendingStatus, ""⟩

/-- `MongoStorage.StoreObject`: store or delete the payload as the data
argument dictates, stamp a fresh `instanceID` and compute the initial
destinations when this node is the origin (status NotReadyToSend or
ReadyToSend), and upsert the document with both remaining counters set to
`metadata.expectedConsumers`. -/
def storeObject (now : Int) (destTable : List Destination) (metaData : MetaData)
    (data : Option Bytes) (status : String) (st : StorageState) : StorageState :=
  let id := createObjectCollectionID metaData.destOrgID metaData.objectType metaData.objectID
  let files1 :=
    match data with
    | some d => mapInsert id d st.files
    | none => if metaData.metaOnly = false ∨ metaData.noData = true
              then mapErase id st.files else st.files
  let origin := status = notReadyToSend ∨ status = readyToSend
  let md1 := if origin then { metaData with instanceID := now } else metaData
  let dests := if origin then createDestinations destTable md1 else []
  let newObj : Object :=
    { id := id, metaData := md1, status := status,
      remainingConsumers := metaData.expectedConsumers,
      remainingReceivers := metaData.expectedConsumers,
      destinations := dests, lastUpdate := 0 }
  { st with objects := upsertObject newObj st.objects, files := files1 }

/-- `MongoStorage.StoreObjectData`: single-shot payload replacement.
Absent object: `updated = false`, no error, nothing changed.  Status
NotReadyToSend moves to ReadyToSend; status ReadyToSend gets a fresh
`instanceID` (the current time in nanoseconds).  The payload is replaced
(`copyDataToFile`, a helper outside the given sources, modelled from the
spec as truncate-write-publish) and `metadata.object-size` is set from
the bytes written; the size update carries no `$currentDate` in the
source, so it does not bump the token. -/
def storeObjectData (now : Int) (orgID objectType objectID : String) (data : Bytes)
    (st : StorageState) : Except StoreErr (Bool × StorageState) :=
  let id := createObjectCollectionID orgID objectType objectID
  match fetchObject id st.objects with
  | none => .ok (false, st)
  | some obj =>
    let objs1 :=
      if obj.status = notReadyToSend then
        updateObjectsById id
          (fun o => { o with status := readyToSend, lastUpdate := o.lastUpdate + 1 })
          st.objects
      else if obj.status = readyToSend then
        updateObjectsById id
          (fun o => { o with metaData := { o.metaData with instanceID := now },
                             lastUpdate := o.lastUpdate + 1 })
          st.objects
      else st.objects
    let files1 := mapInsert id data st.files
    let objs2 := updateObjectsById id
      (fun o => { o with metaData := { o.metaData with objectSize := (data.length : Int) } })
      objs1
    .ok (true, { st with objects := objs2, files := files1 })

/-- `MongoStorage.ResetObjectRemainingConsumers`: fetch the object, then
set `remaining-consumers` to the fetched `metadata.expectedConsumers`
with a `$currentDate` bump of the token; `remaining-receivers` is not in
the update document. -/
def resetObjectRemainingConsumers (orgID objectType objectID : String) (st : StorageState) :
    Except StoreErr StorageState :=
  let id := createObjectCollectionID orgID objectType objectID
  match fetchObject id st.objects with
  | none => .error .notFound
  | some obj =>
    .ok { st with objects :=
      (updateObjectsById id
        (fun o => { o with remainingConsumers := obj.metaData.expectedConsumers,
                           lastUpdate := o.lastUpdate + 1 })
        st.objects) }

/-! ## Random-access reads -/

/-- `MongoStorage.ReadObjectData` on one stored blob: offset at or past
the blob size returns an empty slice, `eof`, zero bytes; otherwise read
up to `size` bytes from `offset`, clipped at the end of the blob, with
`eof` exactly when the read reaches the end. -/
def readObjectData (size offset : Nat) (blob : Bytes) : Except StoreErr (Bytes × Bool × Nat) :=
  if blob.length ≤ offset then .ok ([], true, 0)
  else
    let s := min size (blob.length - offset)
    .ok ((blob.drop offset).take s, blob.length - offset == s, s)

/-- `MongoStorage.ReadObjectData` at the store level: `openFile` (a
helper outside the given sources, modelled from the spec) resolves the
blob stored under the object key; any open failure is an error. -/
def readObjectDataS (orgID objectType objectID : String) (size offset : Nat)
    (st : StorageState) : Except StoreErr (Bytes × Bool × Nat) :=
  match mapLookup (createObjectCollectionID orgID objectType objectID) st.files with
  | none => .error .notFound
  | some blob => readObjectData size offset blob

/-- `dataURI.GetDataChunk` on the bytes of an existing file (the URI
parsing and `os.Open` of the file backend are external collaborators and
elided; the claim quantifies over stored blobs).  `ReadAt` fills a buffer
of length `size` with `n = min size (len - offset)` bytes, leaving the
rest zero, and reports `io.EOF` exactly when `n < size`; on a full read
the file is stat-ed and `eof` is set when the read ended at the file
size, on a clean short read `eof` is set unconditionally.  The returned
slice is the full `size`-length buffer in either case. -/
def getDataChunk (file : Bytes) (size : Nat) (offset : Nat) :
    Except StoreErr (Bytes × Bool × Nat) :=
  let n := min size (file.length - offset)
  let result := (file.drop offset).take n ++ List.replicate (size - n) 0
  if n = size then
    .ok (result, file.length == offset + size, n)
  else
    .ok (result, true, n)

/-! ## MongoStorage.RetrieveNotifications -/

/-- The document predicate of the `RetrieveNotifications` query.  Without
a destination: status Getdata, or resend time due and status among
Update, Received, Consumed, Data, Delete, Deleted (no org filter, as in
the source).  With a destination: the destination triple must match and
the status must be among Update, Received, Consumed, Getdata, Delete,
Deleted, extended by Data and ReceivedByDestination exactly when
`retrieveReceived` is set. -/
def retrieveNotificationsKeep (now : Int) (orgID destType destID : String)
    (retrieveReceived : Bool) (n : Notification) : Bool :=
  if destType = "" ∧ destID = "" then
    n.status == getdataStatus ||
      (decide (n.resendTime ≤ now) &&
        (n.status == updateStatus || n.status == receivedStatus ||
         n.status == consumedStatus || n.status == dataStatus ||
         n.status == deleteStatus || n.status == deletedStatus))
  else if retrieveReceived then
    (n.status == updateStatus || n.status == receivedStatus ||
     n.status == consumedStatus || n.status == getdataStatus ||
     n.status == dataStatus || n.status == receivedByDestination ||
     n.status == deleteStatus || n.status == deletedStatus) &&
    n.destOrgID == orgID && n.destID == destID && n.destType == destType
  else
    (n.status == updateStatus || n.status == receivedStatus ||
     n.status == consumedStatus || n.status == getdataStatus ||
     n.status == deleteStatus || n.status == deletedStatus) &&
    n.destOrgID == orgID && n.destID == destID && n.destType == destType

/-- `MongoStorage.RetrieveNotifications`: the notifications matching the
query, in collection order. -/
def retrieveNotifications (now : Int) (orgID destType destID : String)
    (retrieveReceived : Bool) (db : List Notification) : List Notification :=
  db.filter (retrieveNotificationsKeep now orgID destType destID retrieveReceived)

/-- The dest-given filter worded exactly as the specification sentence
words it (spec-following definition, for comparison with the query the
source builds): statuses Update, Received, Consumed, Getdata, Data,
Delete, Deleted, plus ReceivedByDestination if `retrieveReceived`. -/
def specKeepWithDest (retrieveReceived : Bool) (orgID destType destID : String)
    (n : Notification) : Bool :=
  n.destOrgID == orgID && n.destType == destType && n.destID == destID &&
    (n.status == updateStatus || n.status == receivedStatus ||
     n.status == consumedStatus || n.status == getdataStatus ||
     n.status == dataStatus || n.status == deleteStatus ||
     n.status == deletedStatus ||
     (retrieveReceived && n.status == receivedByDestination))

/-! ## Leader election -/

/-- `MongoStorage.InsertInitialLeader`: insert the singleton document at
version 1 with the configured timeout; a duplicate key is not an error
and reports `inserted = false`.  The struct zero timestamp is 0. -/
def insertInitialLeader (cfgTimeout : Int) (uuid : String) (st : Option LeaderDoc) :
    Bool × Option LeaderDoc :=
  match st with
  | some doc => (false, some doc)
  | none => (true, some ⟨uuid, 0, cfgTimeout, 1⟩)

/-- `MongoStorage.UpdateLeader`: conditional update with filter
`{_id: 1, version}`; on a match set the uuid, refresh the heartbeat
timestamp, set the timeout from configuration and bump the version;
`NotFound` (no document, or the version moved) reports
`success = false` with a nil error and changes nothing. -/
def updateLeader (cfgTimeout : Int) (now : Nat) (uuid : String) (version : Int)
    (st : Option LeaderDoc) : (Bool × Option StoreErr) × Option LeaderDoc :=
  match st with
  | some doc =>
    if doc.version = version then
      ((true, none), some ⟨uuid, now, cfgTimeout, version + 1⟩)
    else ((false, none), some doc)
  | none => ((false, none), none)

/-- A bootstrap or takeover call against the leader document. -/
inductive LeaderOp
  | insert (uuid : String)
  | takeover (uuid : String) (version : Int) (now : Nat)

/-- One leader-collection call. -/
def leaderStep (cfgTimeout : Int) (st : Option LeaderDoc) : LeaderOp → Option LeaderDoc
  | .insert uuid => (insertInitialLeader cfgTimeout uuid st).2
  | .takeover uuid version now => (updateLeader cfgTimeout now uuid version st).2

/-- A sequence of bootstrap and takeover calls. -/
def runLeaderOps (cfgTimeout : Int) (ops : List LeaderOp) (st : Option LeaderDoc) :
    Option LeaderDoc :=
  ops.foldl (leaderStep cfgTimeout) st

end EdgeSync

namespace EdgeSync

/-! ## Association-list map lemmas -/

theorem mapLookup_eq_some_mem {κ α : Type} [DecidableEq κ] {k : κ} {v : α} :
    ∀ {m : List (κ × α)}, mapLookup k m = some v → (k, v) ∈ m := by
  intro m h
  induction m with
  | nil => simp [mapLookup] at h
  | cons kv rest ih =>
    obtain ⟨k2, v2⟩ := kv
    by_cases hk : k2 = k
    · simp only [mapLookup, hk, if_true] at h
      subst hk
      obtain rfl : v2 = v := by injection h
      exact List.mem_cons_self _ _
    · simp only [mapLookup, hk, if_false] at h
      exact List.mem_cons_of_mem _ (ih h)

theorem mapLookup_isSome_of_mem {κ α : Type} [DecidableEq κ] {k : κ} {v : α} :
    ∀ {m : List (κ × α)}, (k, v) ∈ m → (mapLookup k m).isSome := by
  intro m h
  induction m with
  | nil => simp at h
  | cons kv rest ih =>
    obtain ⟨k2, v2⟩ := kv
    by_cases hk : k2 = k
    · simp [mapLookup, hk]
    · rcases List.mem_cons.mp h with h1 | h2
      · exact absurd (congrArg Prod.fst h1).symm hk
      · simpa [mapLookup, hk] using ih h2

theorem mapLookup_eq_none_iff {κ α : Type} [DecidableEq κ] {k : κ} :
    ∀ {m : List (κ × α)}, mapLookup k m = none ↔ k ∉ m.map Prod.fst := by
  intro m
  induction m with
  | nil => simp [mapLookup]
  | cons kv rest ih =>
    obtain ⟨k2, v2⟩ := kv
    by_cases hk : k2 = k
    · simp [mapLookup, hk]
    · simp [mapLookup, hk, ih, Ne.symm hk]

theorem perm_cons_mapErase {κ α : Type} [DecidableEq κ] {k : κ} {v : α} :
    ∀ {m : List (κ × α)}, mapLookup k m = some v → m.Perm ((k, v) :: mapErase k m) := by
  intro m h
  induction m with
  | nil => simp [mapLookup] at h
  | cons kv rest ih =>
    obtain ⟨k2, v2⟩ := kv
    by_cases hk : k2 = k
    · simp only [mapLookup, hk, if_true] at h
      obtain rfl : v2 = v := by injection h
      subst hk
      simp [mapErase]
    · simp only [mapLookup, hk, if_false] at h
      simp only [mapErase, hk, if_false]
      exact ((ih h).cons (k2, v2)).trans (List.Perm.swap _ _ _)

theorem mapInsert_perm {κ α : Type} [DecidableEq κ] {k : κ} {v : α} :
    ∀ {m : List (κ × α)}, mapLookup k m = none → (mapInsert k v m).Perm ((k, v) :: m) := by
  intro m h
  induction m with
  | nil => simp [mapInsert]
  | cons kv rest ih =>
    obtain ⟨k2, v2⟩ := kv
    by_cases hk : k2 = k
    · simp [mapLookup, hk] at h
    · simp only [mapLookup, hk, if_false] at h
      simp only [mapInsert, hk, if_false]
      exact ((ih h).cons (k2, v2)).trans (List.Perm.swap _ _ _)

theorem mapLookup_mapInsert_ne {κ α : Type} [DecidableEq κ] {k1 k2 : κ} (v : α)
    (h : k1 ≠ k2) : ∀ m : List (κ × α), mapLookup k1 (mapInsert k2 v m) = mapLookup k1 m := by
  intro m
  induction m with
  | nil => simp [mapInsert, mapLookup, Ne.symm h]
  | cons kv rest ih =>
    obtain ⟨k3, v3⟩ := kv
    by_cases hk : k3 = k2
    · subst hk
      simp [mapInsert, mapLookup, Ne.symm h]
    · simp only [mapInsert, hk, if_false]
      by_cases hk1 : k3 = k1
      · simp [mapLookup, hk1]
      · simp [mapLookup, hk1, ih]

theorem mapLookup_mapInsert_self {κ α : Type} [DecidableEq κ] (k : κ) (v : α) :
    ∀ m : List (κ × α), mapLookup k (mapInsert k v m) = some v := by
  intro m
  induction m with
  | nil => simp [mapInsert, mapLookup]
  | cons kv rest ih =>
    obtain ⟨k2, v2⟩ := kv
    by_cases hk : k2 = k
    · simp [mapInsert, mapLookup, hk]
    · simp [mapInsert, mapLookup, hk, ih]

theorem mapLookup_mapErase_self {κ α : Type} [DecidableEq κ] (k : κ) :
    ∀ m : List (κ × α), (m.map Prod.fst).Nodup → mapLookup k (mapErase k m) = none := by
  intro m hnd
  induction m with
  | nil => simp [mapErase, mapLookup]
  | cons kv rest ih =>
    obtain ⟨k2, v2⟩ := kv
    simp only [List.map_cons, List.nodup_cons] at hnd
    by_cases hk : k2 = k
    · subst hk
      simp only [mapErase, if_true]
      exact mapLookup_eq_none_iff.mpr hnd.1
    · simp only [mapErase, hk, if_false, mapLookup]
      exact ih hnd.2

/-! ## Lemmas about the sequential chunk sequence -/

theorem seqChunks_le_of_mem : ∀ (l : List Bytes) (s o : Nat) (d : Bytes),
    (o, d) ∈ seqChunks s l → s ≤ o := by
  intro l
  induction l with
  | nil => intro s o d h; simp [seqChunks] at h
  | cons p ps ih =>
    intro s o d h
    rcases List.mem_cons.mp h with h1 | h2
    · injection h1 with h1a h1b
      omega
    · exact Nat.le_trans (Nat.le_add_right _ _) (ih _ _ _ h2)

theorem seqChunks_head_eq {p : Bytes} (hp : p ≠ []) {ps : List Bytes} {s : Nat} {d : Bytes}
    (h : (s, d) ∈ seqChunks s (p :: ps)) : d = p := by
  rcases List.mem_cons.mp h with h1 | h2
  · injection h1 with h1a h1b
  · have hle := seqChunks_le_of_mem ps (s + p.length) s d h2
    have hlen : p.length = 0 := by omega
    exact absurd (List.eq_nil_of_length_eq_zero hlen) hp

theorem seqChunks_keys_pairwise : ∀ (l : List Bytes) (s : Nat), (∀ p ∈ l, p ≠ []) →
    List.Pairwise (· < ·) ((seqChunks s l).map Prod.fst) := by
  intro l
  induction l with
  | nil => intro s _; simp [seqChunks]
  | cons p ps ih =>
    intro s hne
    simp only [seqChunks, List.map_cons, List.pairwise_cons]
    constructor
    · intro o ho
      rcases List.mem_map.mp ho with ⟨⟨o2, d2⟩, hmem, rfl⟩
      have hle := seqChunks_le_of_mem ps (s + p.length) o2 d2 hmem
      have hp : p.length ≠ 0 := by
        intro h0
        exact hne p (List.mem_cons_self _ _) (List.eq_nil_of_length_eq_zero h0)
      omega
    · exact ih _ (fun q hq => hne q (List.mem_cons_of_mem _ hq))

/-! ## Partition bookkeeping -/

theorem take_flatten_succ : ∀ (l : List Bytes) (k : Nat) (p : Bytes) (tl : List Bytes),
    l.drop k = p :: tl → (l.take (k + 1)).flatten = (l.take k).flatten ++ p := by
  intro l
  induction l with
  | nil => intro k p tl h; simp at h
  | cons a l2 ih =>
    intro k p tl h
    cases k with
    | zero =>
      simp only [List.drop_zero] at h
      obtain rfl : a = p := by injection h
      simp
    | succ k =>
      simp only [List.drop_succ_cons] at h
      simp only [List.take_succ_cons, List.flatten_cons, ih k p tl h, List.append_assoc]

theorem drop_succ_eq : ∀ (l : List Bytes) (k : Nat) (p : Bytes) (tl : List Bytes),
    l.drop k = p :: tl → l.drop (k + 1) = tl := by
  intro l k p tl h
  have h2 : l.drop (k + 1) = (l.drop k).drop 1 := by
    rw [List.drop_drop]
  rw [h2, h]
  rfl

/-! ## Unfolding the drain loop -/

theorem mapErase_length_lt {κ α : Type} [DecidableEq κ] (k : κ) :
    ∀ m : List (κ × α), (mapLookup k m).isSome → (mapErase k m).length < m.length := by
  intro m h
  induction m with
  | nil => simp [mapLookup] at h
  | cons kv rest ih =>
    obtain ⟨k2, v⟩ := kv
    by_cases hk : k2 = k
    · simp [mapErase, hk]
    · simp only [mapLookup, hk, if_false] at h
      simp only [mapErase, hk, if_false, List.length_cons]
      exact Nat.succ_lt_succ (ih h)

theorem mapErase_length_succ {κ α : Type} [DecidableEq κ] (k : κ) :
    ∀ m : List (κ × α), (mapLookup k m).isSome → (mapErase k m).length + 1 = m.length := by
  intro m h
  induction m with
  | nil => simp [mapLookup] at h
  | cons kv rest ih =>
    obtain ⟨k2, v⟩ := kv
    by_cases hk : k2 = k
    · simp [mapErase, hk]
    · simp only [mapLookup, hk, if_false] at h
      simp only [mapErase, hk, if_false, List.length_cons]
      rw [ih h]

theorem drainChunksAux_fuel : ∀ (fuel : Nat) (contents : Bytes) (offset : Nat)
    (m : ChunkMap) (data : Bytes), m.length ≤ fuel →
    drainChunksAux fuel contents offset m data
      = drainChunksAux m.length contents offset m data := by
  intro fuel
  induction fuel with
  | zero =>
    intro c o m d hm
    have hm0 : m = [] := List.length_eq_zero.mp (Nat.le_zero.mp hm)
    subst hm0
    rfl
  | succ fuel ih =>
    intro c o m d hm
    rcases hl : mapLookup (o + d.length) m with _ | d2
    · cases m with
      | nil => rfl
      | cons kv rest =>
        simp only [drainChunksAux, List.length_cons, hl]
    · have hsucc : (mapErase (o + d.length) m).length + 1 = m.length :=
        mapErase_length_succ _ m (by rw [hl]; rfl)
      have h1 : drainChunksAux (fuel + 1) c o m d
          = drainChunksAux fuel (c ++ d) (o + d.length)
              (mapErase (o + d.length) m) d2 := by
        simp only [drainChunksAux, hl]
      have h2 : drainChunksAux m.length c o m d
          = drainChunksAux (mapErase (o + d.length) m).length (c ++ d) (o + d.length)
              (mapErase (o + d.length) m) d2 := by
        rw [← hsucc]
        simp only [drainChunksAux, hl]
      rw [h1, h2, ih (c ++ d) (o + d.length) (mapErase (o + d.length) m) d2 (by omega)]

theorem drainChunks_eq (contents : Bytes) (offset : Nat) (m : ChunkMap) (data : Bytes) :
    drainChunks contents offset m data =
      match mapLookup (offset + data.length) m with
      | none => (contents ++ data, offset + data.length, m)
      | some d2 => drainChunks (contents ++ data) (offset + data.length)
          (mapErase (offset + data.length) m) d2 := by
  rcases hl : mapLookup (offset + data.length) m with _ | d2
  · cases m with
    | nil => rfl
    | cons kv rest =>
      simp only [drainChunks, drainChunksAux, List.length_cons, hl]
  · have hsucc : (mapErase (offset + data.length) m).length + 1 = m.length :=
      mapErase_length_succ _ m (by rw [hl]; rfl)
    simp only [drainChunks]
    rw [← hsucc]
    simp only [drainChunksAux, hl]

end EdgeSync

namespace EdgeSync

/-- The drain loop, applied to the piece at index `k` of a partition
whose still-buffered and still-arriving chunks cover the rest of the
blob: it writes a maximal run of consecutive pieces, consuming exactly
the buffered ones, and leaves no buffered chunk at the new offset. -/
theorem drainChunks_spec (pieces : List Bytes) (hne : ∀ p ∈ pieces, p ≠ []) :
    ∀ (n : Nat) (m : ChunkMap), m.length ≤ n →
    ∀ (rest : List (Nat × Bytes)) (k : Nat) (p : Bytes) (tl : List Bytes),
      pieces.drop k = p :: tl →
      (m ++ rest).Perm (seqChunks ((pieces.take k).flatten.length + p.length) tl) →
      ∃ (k2 : Nat) (m2 : ChunkMap),
        k < k2 ∧
        drainChunks (pieces.take k).flatten (pieces.take k).flatten.length m p
          = ((pieces.take k2).flatten, (pieces.take k2).flatten.length, m2) ∧
        (m2 ++ rest).Perm (seqChunks (pieces.take k2).flatten.length (pieces.drop k2)) ∧
        mapLookup (pieces.take k2).flatten.length m2 = none := by
  intro n
  induction n with
  | zero =>
    intro m hm rest k p tl hdrop hperm
    have hm0 : m = [] := List.length_eq_zero.mp (Nat.le_zero.mp hm)
    subst hm0
    have hbk : (pieces.take (k + 1)).flatten = (pieces.take k).flatten ++ p :=
      take_flatten_succ pieces k p tl hdrop
    have hlen : (pieces.take (k + 1)).flatten.length
        = (pieces.take k).flatten.length + p.length := by
      rw [hbk, List.length_append]
    refine ⟨k + 1, [], Nat.lt_succ_self k, ?_, ?_, rfl⟩
    · rw [drainChunks_eq]
      have hl0 : mapLookup ((pieces.take k).flatten.length + p.length) ([] : ChunkMap)
          = none := rfl
      rw [hl0, hlen, hbk]
    · rw [hlen, drop_succ_eq pieces k p tl hdrop]
      simpa using hperm
  | succ n ih =>
    intro m hm rest k p tl hdrop hperm
    have hbk : (pieces.take (k + 1)).flatten = (pieces.take k).flatten ++ p :=
      take_flatten_succ pieces k p tl hdrop
    have hlen : (pieces.take (k + 1)).flatten.length
        = (pieces.take k).flatten.length + p.length := by
      rw [hbk, List.length_append]
    rcases hl0 : mapLookup ((pieces.take k).flatten.length + p.length) m with _ | d2
    · refine ⟨k + 1, m, Nat.lt_succ_self k, ?_, ?_, ?_⟩
      · rw [drainChunks_eq, hl0, hlen, hbk]
      · rw [hlen, drop_succ_eq pieces k p tl hdrop]
        simpa using hperm
      · rw [hlen]
        exact hl0
    · -- a buffered chunk continues the run
      have hdrop2tl : pieces.drop (k + 1) = tl := drop_succ_eq pieces k p tl hdrop
      have hmem : ((pieces.take k).flatten.length + p.length, d2) ∈ m :=
        mapLookup_eq_some_mem hl0
      have hmem2 : ((pieces.take k).flatten.length + p.length, d2) ∈ m ++ rest :=
        List.mem_append.mpr (Or.inl hmem)
      have hmem3 := hperm.mem_iff.mp hmem2
      cases tl with
      | nil => simp [seqChunks] at hmem3
      | cons q tl2 =>
        have hdrop2 : pieces.drop (k + 1) = q :: tl2 := hdrop2tl
        have hq : q ∈ pieces := List.drop_subset (k + 1) pieces
          (by rw [hdrop2]; exact List.mem_cons_self _ _)
        have hqne : q ≠ [] := hne q hq
        have hd2 : d2 = q := seqChunks_head_eq hqne hmem3
        subst hd2
        have hme : m.Perm (((pieces.take k).flatten.length + p.length, d2)
            :: mapErase ((pieces.take k).flatten.length + p.length) m) :=
          perm_cons_mapErase hl0
        have hperm2 : (mapErase ((pieces.take k).flatten.length + p.length) m ++ rest).Perm
            (seqChunks ((pieces.take k).flatten.length + p.length + d2.length) tl2) := by
          have h1 := (hme.append_right rest).symm.trans hperm
          simp only [List.cons_append, seqChunks] at h1
          exact h1.cons_inv
        have hm2 : (mapErase ((pieces.take k).flatten.length + p.length) m).length ≤ n := by
          have := mapErase_length_lt ((pieces.take k).flatten.length + p.length) m
            (by rw [hl0]; rfl)
          omega
        obtain ⟨k2, m2, hk2, heq, hperm3, hnone⟩ :=
          ih (mapErase ((pieces.take k).flatten.length + p.length) m) hm2 rest (k + 1) d2
            tl2 hdrop2 (by rw [hlen]; exact hperm2)
        refine ⟨k2, m2, by omega, ?_, hperm3, hnone⟩
        rw [hlen, hbk] at heq
        rw [drainChunks_eq, hl0]
        exact heq

end EdgeSync

namespace EdgeSync

/-- Any arrival order of the chunks of a partition through one open
handle, with the out-of-order window never exceeding 100 resident
entries, succeeds and writes exactly the whole blob. -/
theorem runCallsOnHandle_perm (pieces : List Bytes) (hne : ∀ p ∈ pieces, p ≠ []) :
    ∀ (calls : List (Nat × Bytes)) (fh : FileHandle) (k : Nat),
      fh.contents = (pieces.take k).flatten →
      fh.offset = fh.contents.length →
      ((fh.chunks ++ calls).Perm (seqChunks fh.offset (pieces.drop k))) →
      mapLookup fh.offset fh.chunks = none →
      windowOkB fh calls = true →
      ∃ fhf, runCallsOnHandle fh calls = .ok fhf ∧ fhf.contents = pieces.flatten := by
  intro calls
  induction calls with
  | nil =>
    intro fh k hc ho hperm hlook _
    refine ⟨fh, rfl, ?_⟩
    have hdk : pieces.drop k = [] := by
      cases hd : pieces.drop k with
      | nil => rfl
      | cons q tl =>
        exfalso
        rw [hd] at hperm
        have hmem : (fh.offset, q) ∈ seqChunks fh.offset (q :: tl) :=
          List.mem_cons_self _ _
        have hmem2 : (fh.offset, q) ∈ fh.chunks ++ ([] : List (Nat × Bytes)) :=
          hperm.mem_iff.mpr hmem
        rw [List.append_nil] at hmem2
        have hs := mapLookup_isSome_of_mem hmem2
        rw [hlook] at hs
        simp at hs
    have hlen : pieces.length ≤ k := List.drop_eq_nil_iff_le.mp hdk
    rw [hc, List.take_of_length_le hlen]
  | cons od rest ih =>
    obtain ⟨o, d⟩ := od
    intro fh k hc ho hperm hlook hwin
    have hoA : fh.offset = (pieces.take k).flatten.length := by rw [ho, hc]
    simp only [windowOkB, Bool.and_eq_true, decide_eq_true_eq] at hwin
    obtain ⟨hlen100, hwinrest⟩ := hwin
    have hmemseq : (o, d) ∈ seqChunks fh.offset (pieces.drop k) :=
      hperm.mem_iff.mp (List.mem_append.mpr (Or.inr (List.mem_cons_self _ _)))
    by_cases hoeq : o = fh.offset
    · -- the chunk continues the sequential prefix: write and drain
      cases hd : pieces.drop k with
      | nil =>
        exfalso
        rw [hd] at hmemseq
        simp [seqChunks] at hmemseq
      | cons p tl =>
        have hpne : p ≠ [] :=
          hne p (List.drop_subset k pieces (by rw [hd]; exact List.mem_cons_self _ _))
        rw [hd] at hmemseq hperm
        have hdp : d = p := by
          apply seqChunks_head_eq hpne
          rw [hoeq] at hmemseq
          exact hmemseq
        subst hdp
        have hperm2 : (fh.chunks ++ rest).Perm
            (seqChunks ((pieces.take k).flatten.length + d.length) tl) := by
          have h1 : ((o, d) :: (fh.chunks ++ rest)).Perm
              (seqChunks fh.offset (d :: tl)) :=
            List.perm_middle.symm.trans hperm
          rw [hoeq, hoA] at h1
          simp only [seqChunks] at h1
          exact h1.cons_inv
        obtain ⟨k2, m2, hk2, heq, hperm3, hnone⟩ :=
          drainChunks_spec pieces hne fh.chunks.length fh.chunks (Nat.le_refl _)
            rest k d tl hd hperm2
        have happ : appendChunkToHandle fh d o
            = .ok ⟨(pieces.take k2).flatten, (pieces.take k2).flatten.length, m2⟩ := by
          simp only [appendChunkToHandle, if_pos hoeq]
          rw [hc, hoA, heq]
        simp only [happ] at hwinrest
        obtain ⟨fhf, hrun, hcont⟩ := ih ⟨(pieces.take k2).flatten,
          (pieces.take k2).flatten.length, m2⟩ k2 rfl rfl hperm3 hnone hwinrest
        refine ⟨fhf, ?_, hcont⟩
        simp only [runCallsOnHandle, happ]
        exact hrun
    · -- out-of-order chunk: buffered in the window
      have hnotbig : ¬ (100 < fh.chunks.length) := by omega
      have happ : appendChunkToHandle fh d o
          = .ok { fh with chunks := mapInsert o d fh.chunks } := by
        simp only [appendChunkToHandle]
        rw [if_neg hoeq, if_neg hnotbig]
      have hkeys := hperm.map Prod.fst
      have hndR : ((seqChunks fh.offset (pieces.drop k)).map Prod.fst).Nodup := by
        refine List.Pairwise.imp (fun h => ne_of_lt h) ?_
        exact seqChunks_keys_pairwise (pieces.drop k) _
          (fun q hq => hne q (List.drop_subset k pieces hq))
      have hndL := (hkeys.nodup_iff).mpr hndR
      rw [List.map_append, List.map_cons] at hndL
      have hdisj := List.disjoint_of_nodup_append hndL
      have honotin : o ∉ fh.chunks.map Prod.fst := fun hoin =>
        hdisj hoin (List.mem_cons_self _ _)
      have hlookO : mapLookup o fh.chunks = none := mapLookup_eq_none_iff.mpr honotin
      have hperm2 : ((mapInsert o d fh.chunks) ++ rest).Perm
          (seqChunks fh.offset (pieces.drop k)) := by
        refine List.Perm.trans ?_ hperm
        refine List.Perm.trans ((mapInsert_perm hlookO).append_right rest) ?_
        rw [List.cons_append]
        exact List.perm_middle.symm
      have hlook2 : mapLookup fh.offset (mapInsert o d fh.chunks) = none := by
        rw [mapLookup_mapInsert_ne d (fun h => hoeq h.symm), hlook]
      simp only [happ] at hwinrest
      obtain ⟨fhf, hrun, hcont⟩ := ih { fh with chunks := mapInsert o d fh.chunks } k
        hc ho hperm2 hlook2 hwinrest
      refine ⟨fhf, ?_, hcont⟩
      simp only [runCallsOnHandle, happ]
      exact hrun

/-- Chunks arriving already in sequential order keep the window empty. -/
theorem windowOkB_seq : ∀ (l : List Bytes) (c : Bytes) (o : Nat),
    windowOkB ⟨c, o, []⟩ (seqChunks o l) = true := by
  intro l
  induction l with
  | nil => intro c o; simp [seqChunks, windowOkB]
  | cons p ps ih =>
    intro c o
    have happ : appendChunkToHandle ⟨c, o, []⟩ p o
        = .ok ⟨c ++ p, o + p.length, []⟩ := by
      simp only [appendChunkToHandle, if_pos rfl]
      rw [drainChunks_eq]
      rfl
    simp only [seqChunks, windowOkB, happ, Bool.and_eq_true, decide_eq_true_eq]
    exact ⟨by simp, ih (c ++ p) (o + p.length)⟩

end EdgeSync

namespace EdgeSync

/-- Unfolding `appendObjectData` for a non-first chunk whose handle is open. -/
theorem appendObjectData_notFirst (st : StorageState) (id : String) (data : Bytes)
    (offset : Nat) (last : Bool) (fh : FileHandle)
    (hlook : mapLookup id st.openFiles = some fh) :
    appendObjectData st id data offset false last =
      match appendChunkToHandle fh data offset with
      | .error e => .error e
      | .ok fh2 =>
        if last then
          .ok { st with openFiles := mapErase id st.openFiles,
                        files := mapInsert id fh2.contents st.files }
        else
          .ok { st with openFiles := mapInsert id fh2 st.openFiles } := by
  simp only [appendObjectData, Bool.false_eq_true, if_false, hlook]

/-- Unfolding `appendObjectData` for the first chunk. -/
theorem appendObjectData_first (st : StorageState) (id : String) (data : Bytes)
    (offset : Nat) (last : Bool) :
    appendObjectData st id data offset true last =
      match appendChunkToHandle ⟨[], 0, []⟩ data offset with
      | .error e => .error e
      | .ok fh2 =>
        if last then
          .ok { st with openFiles := mapErase id st.openFiles,
                        files := mapInsert id fh2.contents (mapErase id st.files) }
        else
          .ok { st with files := mapErase id st.files,
                        openFiles := mapInsert id fh2 st.openFiles } := by
  simp only [appendObjectData, if_true]

/-- Store-level simulation of the handle-level run for the calls after
the first one. -/
theorem runAppendAux_bridge (id : String) :
    ∀ (calls : List (Nat × Bytes)) (fh fhf : FileHandle) (st : StorageState),
      mapLookup id st.openFiles = some fh →
      runCallsOnHandle fh calls = .ok fhf →
      calls ≠ [] →
      ∃ st2, runAppendAux id st false calls = .ok st2 ∧
        mapLookup id st2.files = some fhf.contents := by
  intro calls
  induction calls with
  | nil => intro fh fhf st _ _ hcne; exact absurd rfl hcne
  | cons od rest ih =>
    obtain ⟨o, d⟩ := od
    intro fh fhf st hlook hrun _
    rcases happ : appendChunkToHandle fh d o with e | fh2
    · exfalso
      simp only [runCallsOnHandle, happ] at hrun
      exact Except.noConfusion hrun
    · simp only [runCallsOnHandle, happ] at hrun
      cases rest with
      | nil =>
        have hfh2 : fh2 = fhf := by
          simp only [runCallsOnHandle, Except.ok.injEq] at hrun
          exact hrun
        subst hfh2
        refine ⟨{ st with openFiles := mapErase id st.openFiles, files := mapInsert id fh2.contents st.files }, ?_, ?_⟩
        · simp only [runAppendAux, List.isEmpty_nil,
            appendObjectData_notFirst st id d o true fh hlook, happ, if_true]
        · exact mapLookup_mapInsert_self id fh2.contents st.files
      | cons c2 rest2 =>
        have hlook2 : mapLookup id (mapInsert id fh2 st.openFiles) = some fh2 :=
          mapLookup_mapInsert_self id fh2 st.openFiles
        obtain ⟨st2, hrun2, hfiles⟩ := ih fh2 fhf
          { st with openFiles := mapInsert id fh2 st.openFiles } hlook2 hrun
          (by simp)
        refine ⟨st2, ?_, hfiles⟩
        simp only [runAppendAux, List.isEmpty_cons,
          appendObjectData_notFirst st id d o false fh hlook, happ, if_false]
        simpa using hrun2

/-- Store-level simulation of a whole upload: the first call creates the
fresh handle, the final call publishes the written bytes. -/
theorem runAppendCalls_publishes (id : String) (st : StorageState) (o : Nat) (d : Bytes)
    (rest : List (Nat × Bytes)) (fhf : FileHandle)
    (hrun : runCallsOnHandle ⟨[], 0, []⟩ ((o, d) :: rest) = .ok fhf) :
    ∃ st2, runAppendCalls st id ((o, d) :: rest) = .ok st2 ∧
      mapLookup id st2.files = some fhf.contents := by
  rcases happ : appendChunkToHandle ⟨[], 0, []⟩ d o with e | fh2
  · exfalso
    simp only [runCallsOnHandle, happ] at hrun
    exact Except.noConfusion hrun
  · simp only [runCallsOnHandle, happ] at hrun
    cases rest with
    | nil =>
      have hfh2 : fh2 = fhf := by
        simp only [runCallsOnHandle, Except.ok.injEq] at hrun
        exact hrun
      subst hfh2
      refine ⟨{ st with openFiles := mapErase id st.openFiles, files := mapInsert id fh2.contents (mapErase id st.files) }, ?_, ?_⟩
      · simp only [runAppendCalls, runAppendAux, List.isEmpty_nil,
          appendObjectData_first st id d o true, happ, if_true]
      · exact mapLookup_mapInsert_self id fh2.contents (mapErase id st.files)
    | cons c2 rest2 =>
      obtain ⟨st2, hrun2, hfiles⟩ := runAppendAux_bridge id (c2 :: rest2) fh2 fhf
        { st with files := mapErase id st.files,
                  openFiles := mapInsert id fh2 st.openFiles }
        (mapLookup_mapInsert_self id fh2 st.openFiles) hrun (by simp)
      refine ⟨st2, ?_, hfiles⟩
      simp only [runAppendCalls, runAppendAux, List.isEmpty_cons,
        appendObjectData_first st id d o false, happ, if_false]
      simpa using hrun2

end EdgeSync

namespace EdgeSync

/-- C1: for every sequence of N chunks exactly covering `[0, total)`,
calling AppendObjectData with those chunks in any permutation — the
first call carrying `firstChunk = true` at offset 0, the final call
carrying `lastChunk = true` — with never more than 100 entries resident
in the out-of-order window, produces a published blob byte-identical to
appending the same chunks in sequential offset order: a chunk at the
current handle offset is written, the offset advances by the bytes
written, and buffered chunks at the new offset are drained repeatedly.
Both runs publish exactly the concatenation of the pieces. -/
theorem appendObjectData_perm_eq_seq (pieces : List Bytes) (st : StorageState)
    (id : String) (calls : List (Nat × Bytes)) (d0 : Bytes) (tlc : List (Nat × Bytes))
    (hne : ∀ p ∈ pieces, p ≠ [])
    (hcalls : calls = (0, d0) :: tlc)
    (hperm : calls.Perm (seqChunks 0 pieces))
    (hwin : windowOkB ⟨[], 0, []⟩ calls = true) :
    ∃ st1 st2,
      runAppendCalls st id calls = .ok st1 ∧
      runAppendCalls st id (seqChunks 0 pieces) = .ok st2 ∧
      mapLookup id st1.files = some pieces.flatten ∧
      mapLookup id st2.files = mapLookup id st1.files := by
  subst hcalls
  have hinv : ((([] : ChunkMap) ++ ((0, d0) :: tlc)).Perm
      (seqChunks (FileHandle.mk [] 0 []).offset (pieces.drop 0))) := by
    simpa using hperm
  obtain ⟨fhf, hrunh, hcont⟩ := runCallsOnHandle_perm pieces hne ((0, d0) :: tlc)
    ⟨[], 0, []⟩ 0 rfl rfl hinv rfl hwin
  obtain ⟨st1, hrun1, hfiles1⟩ := runAppendCalls_publishes id st 0 d0 tlc fhf hrunh
  cases pieces with
  | nil =>
    exfalso
    simp [seqChunks] at hperm
  | cons p0 ps =>
    have hwins : windowOkB ⟨[], 0, []⟩ (seqChunks 0 (p0 :: ps)) = true :=
      windowOkB_seq (p0 :: ps) [] 0
    have hinvs : ((([] : ChunkMap) ++ seqChunks 0 (p0 :: ps)).Perm
        (seqChunks (FileHandle.mk [] 0 []).offset ((p0 :: ps).drop 0))) := by
      simp
    obtain ⟨fhs, hrunhs, hconts⟩ := runCallsOnHandle_perm (p0 :: ps) hne
      (seqChunks 0 (p0 :: ps)) ⟨[], 0, []⟩ 0 rfl rfl hinvs rfl hwins
    have hrunhs2 : runCallsOnHandle ⟨[], 0, []⟩
        ((0, p0) :: seqChunks (0 + p0.length) ps) = .ok fhs := hrunhs
    obtain ⟨st2, hrun2, hfiles2⟩ := runAppendCalls_publishes id st 0 p0
      (seqChunks (0 + p0.length) ps) fhs hrunhs2
    refine ⟨st1, st2, hrun1, hrun2, ?_, ?_⟩
    · rw [hfiles1, hcont]
    · rw [hfiles1, hcont, hfiles2, hconts]

/-- Witness for C1: a concrete three-chunk blob uploaded in the order
first, third, second publishes the same bytes as the sequential order. -/
theorem appendObjectData_perm_eq_seq_witness :
    (∀ p ∈ [[1, 2], [3], [4, 5]], p ≠ ([] : Bytes)) ∧
    ∃ st1 st2,
      runAppendCalls ⟨[], [], []⟩ "org:type:id" [(0, [1, 2]), (3, [4, 5]), (2, [3])]
        = .ok st1 ∧
      runAppendCalls ⟨[], [], []⟩ "org:type:id" (seqChunks 0 [[1, 2], [3], [4, 5]])
        = .ok st2 ∧
      mapLookup "org:type:id" st1.files = some ([[1, 2], [3], [4, 5]] : List Bytes).flatten ∧
      mapLookup "org:type:id" st2.files = mapLookup "org:type:id" st1.files :=
  ⟨by decide,
   appendObjectData_perm_eq_seq [[1, 2], [3], [4, 5]] ⟨[], [], []⟩ "org:type:id"
     [(0, [1, 2]), (3, [4, 5]), (2, [3])] [1, 2] [(3, [4, 5]), (2, [3])]
     (by decide) rfl (by decide) (by decide)⟩

/-- C2 (amended): for a call whose offset is above the handle offset,
when the per-handle out-of-order map already holds more than 100 entries
the chunk is discarded with a `Discarded` error and the map is unchanged
(the error return precedes the map assignment), and otherwise the chunk
is stored in the map.  Hence the 101st out-of-order chunk is still
stored — the first discarded call is the 102nd, with the prior 101
persisting in the window. -/
theorem appendObjectData_overflow_discard (fh : FileHandle) (data : Bytes) (offset : Nat)
    (hoff : fh.offset < offset) :
    (100 < fh.chunks.length → appendChunkToHandle fh data offset = .error .discarded) ∧
    (fh.chunks.length ≤ 100 →
      appendChunkToHandle fh data offset
        = .ok { fh with chunks := mapInsert offset data fh.chunks }) := by
  have hne2 : ¬ (offset = fh.offset) := by omega
  constructor
  · intro hbig
    simp only [appendChunkToHandle, if_neg hne2, if_pos hbig]
  · intro hsmall
    have hnb : ¬ (100 < fh.chunks.length) := by omega
    simp only [appendChunkToHandle, if_neg hne2, if_neg hnb]

/-- Witness for C2 (amended): a window of 101 entries rejects the next
out-of-order chunk; a window of 100 entries still accepts it. -/
theorem appendObjectData_overflow_discard_witness :
    appendChunkToHandle ⟨[0], 1, (List.range 101).map fun i => (i + 2, [1])⟩ [7] 200
      = .error .discarded ∧
    appendChunkToHandle ⟨[0], 1, (List.range 100).map fun i => (i + 2, [1])⟩ [7] 200
      = .ok ⟨[0], 1, mapInsert 200 [7] ((List.range 100).map fun i => (i + 2, [1]))⟩ :=
  ⟨(appendObjectData_overflow_discard ⟨[0], 1, (List.range 101).map fun i => (i + 2, [1])⟩
      [7] 200 (by decide)).1 (by decide),
   (appendObjectData_overflow_discard ⟨[0], 1, (List.range 100).map fun i => (i + 2, [1])⟩
      [7] 200 (by decide)).2 (by decide)⟩

set_option maxRecDepth 40000 in
/-- Counterexample for C2 as stated: after one sequential chunk, 101
out-of-order chunks at distinct non-sequential offsets are all accepted
— the run succeeds with all 101 resident in the window, so the 101st
out-of-order call does not return `Discarded`. -/
theorem appendObjectData_101st_chunk_not_discarded :
    (match runCallsOnHandle ⟨[], 0, []⟩
        ((0, [0]) :: ((List.range 101).map fun i => (i + 2, [1]))) with
      | .ok fh => some fh.chunks.length
      | .error _ => none) = some 101 := by
  decide

/-- C8: after every successful AppendObjectData call with
`lastChunk = true` the openFiles map holds no handle for that key (the
handle is evicted and the file closed, publishing the blob); after every
other successful call the handle for the key is present in openFiles. -/
theorem appendObjectData_lastChunk_evicts (st : StorageState) (id : String)
    (data : Bytes) (offset : Nat) (first : Bool)
    (hnodup : (st.openFiles.map Prod.fst).Nodup) :
    (∀ st2, appendObjectData st id data offset first true = .ok st2 →
      mapLookup id st2.openFiles = none) ∧
    (∀ st2, appendObjectData st id data offset first false = .ok st2 →
      ∃ fh2, mapLookup id st2.openFiles = some fh2) := by
  constructor
  · intro st2 h
    cases first with
    | true =>
      rw [appendObjectData_first] at h
      rcases happ : appendChunkToHandle ⟨[], 0, []⟩ data offset with e | fh2
      · rw [happ] at h
        exact Except.noConfusion h
      · rw [happ] at h
        simp only [if_true] at h
        obtain rfl : _ = st2 := by injection h
        exact mapLookup_mapErase_self id st.openFiles hnodup
    | false =>
      rcases hl : mapLookup id st.openFiles with _ | fh
      · simp only [appendObjectData, Bool.false_eq_true, if_false, hl] at h
        exact Except.noConfusion h
      · rw [appendObjectData_notFirst st id data offset true fh hl] at h
        rcases happ : appendChunkToHandle fh data offset with e | fh2
        · rw [happ] at h
          exact Except.noConfusion h
        · rw [happ] at h
          simp only [if_true] at h
          obtain rfl : _ = st2 := by injection h
          exact mapLookup_mapErase_self id st.openFiles hnodup
  · intro st2 h
    cases first with
    | true =>
      rw [appendObjectData_first] at h
      rcases happ : appendChunkToHandle ⟨[], 0, []⟩ data offset with e | fh2
      · rw [happ] at h
        exact Except.noConfusion h
      · rw [happ] at h
        simp only [Bool.false_eq_true, if_false] at h
        obtain rfl : _ = st2 := by injection h
        exact ⟨fh2, mapLookup_mapInsert_self id fh2 st.openFiles⟩
    | false =>
      rcases hl : mapLookup id st.openFiles with _ | fh
      · simp only [appendObjectData, Bool.false_eq_true, if_false, hl] at h
        exact Except.noConfusion h
      · rw [appendObjectData_notFirst st id data offset false fh hl] at h
        rcases happ : appendChunkToHandle fh data offset with e | fh2
        · rw [happ] at h
          exact Except.noConfusion h
        · rw [happ] at h
          simp only [Bool.false_eq_true, if_false] at h
          obtain rfl : _ = st2 := by injection h
          exact ⟨fh2, mapLookup_mapInsert_self id fh2 st.openFiles⟩

/-- Witness for C8: a one-chunk upload evicts the handle on the last
chunk and keeps it otherwise. -/
theorem appendObjectData_lastChunk_evicts_witness :
    ((([] : List (String × FileHandle)).map Prod.fst).Nodup) ∧
    mapLookup "k" (StorageState.mk [] [("k", [1])] []).openFiles = none ∧
    ∃ fh2, mapLookup "k"
      (StorageState.mk [] [] [("k", ⟨[1], 1, []⟩)]).openFiles = some fh2 :=
  ⟨by decide,
   (appendObjectData_lastChunk_evicts ⟨[], [], []⟩ "k" [1] 0 true (by decide)).1
     ⟨[], [("k", [1])], []⟩ (by rfl),
   (appendObjectData_lastChunk_evicts ⟨[], [], []⟩ "k" [1] 0 true (by decide)).2
     ⟨[], [], [("k", ⟨[1], 1, []⟩)]⟩ (by rfl)⟩

end EdgeSync

namespace EdgeSync

/-! ## Object collection lemmas -/

theorem fetchObject_id (id : String) :
    ∀ (db : List Object) (obj : Object), fetchObject id db = some obj → obj.id = id := by
  intro db
  induction db with
  | nil => intro obj h; simp [fetchObject] at h
  | cons o rest ih =>
    intro obj h
    by_cases ho : o.id = id
    · simp only [fetchObject, ho, if_true] at h
      obtain rfl : o = obj := by injection h
      exact ho
    · simp only [fetchObject, ho, if_false] at h
      exact ih obj h

theorem fetchObject_map (id : String) (g : Object → Object) (hid : ∀ o, (g o).id = o.id) :
    ∀ (db : List Object) (obj : Object), fetchObject id db = some obj →
      fetchObject id (db.map g) = some (g obj) := by
  intro db
  induction db with
  | nil => intro obj h; simp [fetchObject] at h
  | cons o rest ih =>
    intro obj h
    by_cases ho : o.id = id
    · simp only [fetchObject, ho, if_true] at h
      obtain rfl : o = obj := by injection h
      simp only [List.map_cons, fetchObject, hid o, ho, if_true]
    · simp only [fetchObject, ho, if_false] at h
      simp only [List.map_cons, fetchObject, hid o, ho, if_false]
      exact ih obj h

theorem fetchObject_updateObjectsById (id : String) (f : Object → Object)
    (hid : ∀ o, (f o).id = o.id) (db : List Object) (obj : Object)
    (h : fetchObject id db = some obj) :
    fetchObject id (updateObjectsById id f db) = some (f obj) := by
  have hg : ∀ o : Object, ((fun o => if o.id = id then f o else o) o).id = o.id := by
    intro o
    by_cases ho : o.id = id <;> simp [ho, hid o]
  have hmap := fetchObject_map id (fun o => if o.id = id then f o else o) hg db obj h
  have hobjid : obj.id = id := fetchObject_id id db obj h
  rw [updateObjectsById, hmap]
  simp [hobjid]

theorem fetchObject_upsertObject (newObj : Object) :
    ∀ db : List Object, ∃ obj2,
      fetchObject newObj.id (upsertObject newObj db) = some obj2 ∧
      obj2.metaData = newObj.metaData ∧ obj2.status = newObj.status ∧
      obj2.remainingConsumers = newObj.remainingConsumers ∧
      obj2.remainingReceivers = newObj.remainingReceivers ∧
      obj2.destinations = newObj.destinations := by
  intro db
  induction db with
  | nil =>
    exact ⟨newObj, by simp [upsertObject, fetchObject], rfl, rfl, rfl, rfl, rfl⟩
  | cons o rest ih =>
    by_cases ho : o.id = newObj.id
    · refine ⟨{ newObj with lastUpdate := o.lastUpdate + 1 }, ?_, rfl, rfl, rfl, rfl, rfl⟩
      simp [upsertObject, ho, fetchObject]
    · obtain ⟨obj2, hfetch, hrest⟩ := ih
      refine ⟨obj2, ?_, hrest⟩
      simp only [upsertObject, ho, if_false, fetchObject]
      exact hfetch

/-! ## The destination-scan loop -/

theorem updateDestsLoop_after_found (status message dt di : String) :
    ∀ (l : List StoreDestinationStatus) (ac : Bool),
      updateDestsLoop status message dt di l true ac
        = (l, true, ac && l.all fun d => d.status == consumedStatus) := by
  intro l
  induction l with
  | nil => intro ac; simp [updateDestsLoop]
  | cons d rest ih =>
    intro ac
    simp only [updateDestsLoop, ih, List.all_cons]
    rw [if_neg (by simp)]
    simp [Bool.and_assoc]

theorem updateDestsLoop_skip (status message dt di : String) :
    ∀ (pre l : List StoreDestinationStatus),
      (∀ d ∈ pre, ¬(d.destination.destType = dt ∧ d.destination.destID = di)) →
      (∀ d ∈ pre, d.status = consumedStatus) →
      updateDestsLoop status message dt di (pre ++ l) false true
        = (pre ++ (updateDestsLoop status message dt di l false true).1,
           (updateDestsLoop status message dt di l false true).2.1,
           (updateDestsLoop status message dt di l false true).2.2) := by
  intro pre
  induction pre with
  | nil => intro l _ _; simp
  | cons d pre2 ih =>
    intro l hnm hcons
    have hd1 : ¬(d.destination.destType = dt ∧ d.destination.destID = di) :=
      hnm d (List.mem_cons_self _ _)
    have hd2 : d.status = consumedStatus := hcons d (List.mem_cons_self _ _)
    simp only [List.cons_append, updateDestsLoop]
    rw [if_neg (by simp [hd1])]
    simp only [List.append_eq, hd2, beq_self_eq_true, Bool.and_true, Bool.true_and]
    rw [ih l (fun x hx => hnm x (List.mem_cons_of_mem _ hx))
      (fun x hx => hcons x (List.mem_cons_of_mem _ hx))]

/-- C3: for an object with `autoDelete = true` and empty expiration, an
UpdateObjectDeliveryStatus call marking one destination `Consumed` while
every other destination in the list is already `Consumed` sets
`metadata.expiration` to the rendering of now plus one hour (3600
seconds) in the same update. -/
theorem updateObjectDeliveryStatus_autoDelete_expiration
    (now : Nat) (message orgID objectType objectID destType destID : String)
    (db : List Object) (obj : Object) (pre post : List StoreDestinationStatus)
    (dm : StoreDestinationStatus)
    (hfetch : fetchObject (createObjectCollectionID orgID objectType objectID) db
      = some obj)
    (hdests : obj.destinations = pre ++ dm :: post)
    (hpre : ∀ d ∈ pre, ¬(d.destination.destType = destType ∧ d.destination.destID = destID))
    (hdm : dm.destination.destType = destType ∧ dm.destination.destID = destID)
    (hpreC : ∀ d ∈ pre, d.status = consumedStatus)
    (hpostC : ∀ d ∈ post, d.status = consumedStatus)
    (hauto : obj.metaData.autoDelete = true)
    (hexp : obj.metaData.expiration = none) :
    ∃ db2, updateObjectDeliveryStatus now consumedStatus message orgID objectType objectID
        destType destID db = .ok db2 ∧
      ∃ obj2, fetchObject (createObjectCollectionID orgID objectType objectID) db2
          = some obj2 ∧
        obj2.metaData.expiration = some (now + 3600) := by
  have hloop : updateDestsLoop consumedStatus message destType destID
      obj.destinations false true
      = (pre ++ ({ dm with
            message := if message ≠ "" ∨ dm.status = errorStatus then message
                       else dm.message,
            status := if consumedStatus ≠ "" then consumedStatus else dm.status }
          :: post), true, post.all fun d => d.status == consumedStatus) := by
    rw [hdests, updateDestsLoop_skip consumedStatus message destType destID pre
      (dm :: post) hpre hpreC]
    simp only [updateDestsLoop]
    split
    · rw [updateDestsLoop_after_found]
      simp
    · rename_i hcond
      exact absurd ⟨trivial, hdm.1, hdm.2⟩ hcond
  have hall : (post.all fun d => d.status == consumedStatus) = true := by
    rw [List.all_eq_true]
    intro d hd
    simp [hpostC d hd]
  have hguard : ¬(consumedStatus = "" ∧ message = "") := by
    intro hcm
    exact absurd hcm.1 (by decide)
  simp only [updateObjectDeliveryStatus, hguard, if_false, hfetch, hloop, hall]
  rw [if_neg (show ¬(true = false) by simp)]
  have hcondA : (obj.metaData.autoDelete = true ∧ True ∧ True ∧
      obj.metaData.expiration = none) = True := by
    simp [hauto, hexp]
  simp only [hcondA, if_true]
  refine ⟨_, rfl, ?_⟩
  have hid : ∀ o : Object,
      ((fun o => if o.id = createObjectCollectionID orgID objectType objectID ∧
          o.lastUpdate = obj.lastUpdate then
        { o with
          destinations := pre ++ ({ dm with
            message := if message ≠ "" ∨ dm.status = errorStatus then message
                       else dm.message,
            status := if consumedStatus ≠ "" then consumedStatus else dm.status } :: post),
          metaData := { obj.metaData with expiration := some (now + 3600) },
          lastUpdate := o.lastUpdate + 1 }
      else o) o).id = o.id := by
    intro o
    by_cases ho : o.id = createObjectCollectionID orgID objectType objectID ∧
        o.lastUpdate = obj.lastUpdate
    · simp [ho]
    · simp [ho]
  have hmap := fetchObject_map (createObjectCollectionID orgID objectType objectID)
    _ hid db obj hfetch
  refine ⟨_, hmap, ?_⟩
  have hobjid : obj.id = createObjectCollectionID orgID objectType objectID :=
    fetchObject_id _ db obj hfetch
  simp [hobjid]

end EdgeSync

namespace EdgeSync

/-- Witness for C3: an auto-delete object with two destinations; dest1
is marked Consumed, then marking dest2 Consumed sets the expiration to
now plus one hour on the second call. -/
theorem updateObjectDeliveryStatus_autoDelete_witness :
    updateObjectDeliveryStatus 1000 consumedStatus "" "o" "t" "i" "dt1" "di1"
      [⟨"o:t:i", ⟨"o", "t", "i", "", "", 2, true, false, false, none, 0, 0⟩, readyToSend,
        2, 2, [⟨⟨"o", "dt1", "di1", "h"⟩, deliveringStatus, ""⟩,
               ⟨⟨"o", "dt2", "di2", "h"⟩, deliveringStatus, ""⟩], 0⟩]
      = .ok [⟨"o:t:i", ⟨"o", "t", "i", "", "", 2, true, false, false, none, 0, 0⟩,
        readyToSend, 2, 2, [⟨⟨"o", "dt1", "di1", "h"⟩, consumedStatus, ""⟩,
               ⟨⟨"o", "dt2", "di2", "h"⟩, deliveringStatus, ""⟩], 1⟩] ∧
    ∃ db2, updateObjectDeliveryStatus 1000 consumedStatus "" "o" "t" "i" "dt2" "di2"
      [⟨"o:t:i", ⟨"o", "t", "i", "", "", 2, true, false, false, none, 0, 0⟩, readyToSend,
        2, 2, [⟨⟨"o", "dt1", "di1", "h"⟩, consumedStatus, ""⟩,
               ⟨⟨"o", "dt2", "di2", "h"⟩, deliveringStatus, ""⟩], 1⟩] = .ok db2 ∧
      ∃ obj2, fetchObject (createObjectCollectionID "o" "t" "i") db2 = some obj2 ∧
        obj2.metaData.expiration = some (1000 + 3600) :=
  ⟨by rfl,
   updateObjectDeliveryStatus_autoDelete_expiration 1000 "" "o" "t" "i" "dt2" "di2"
     [⟨"o:t:i", ⟨"o", "t", "i", "", "", 2, true, false, false, none, 0, 0⟩, readyToSend,
       2, 2, [⟨⟨"o", "dt1", "di1", "h"⟩, consumedStatus, ""⟩,
              ⟨⟨"o", "dt2", "di2", "h"⟩, deliveringStatus, ""⟩], 1⟩]
     ⟨"o:t:i", ⟨"o", "t", "i", "", "", 2, true, false, false, none, 0, 0⟩, readyToSend,
       2, 2, [⟨⟨"o", "dt1", "di1", "h"⟩, consumedStatus, ""⟩,
              ⟨⟨"o", "dt2", "di2", "h"⟩, deliveringStatus, ""⟩], 1⟩
     [⟨⟨"o", "dt1", "di1", "h"⟩, consumedStatus, ""⟩] []
     ⟨⟨"o", "dt2", "di2", "h"⟩, deliveringStatus, ""⟩
     (by rfl) (by rfl) (by decide) (by decide) (by decide) (by decide) rfl rfl⟩

/-- C5: StoreObjectData returns updated false with no error and an
unchanged state when the object does not exist; an existing object with
status NotReadyToSend transitions to ReadyToSend; one with status
ReadyToSend gets a fresh instanceID from the current time in
nanoseconds; and in every successful case the payload is replaced,
metadata.object-size is set to the number of bytes written and
updated true is returned. -/
theorem storeObjectData_spec :
    (∀ (now : Int) (orgID objectType objectID : String) (data : Bytes) (st : StorageState),
      fetchObject (createObjectCollectionID orgID objectType objectID) st.objects = none →
      storeObjectData now orgID objectType objectID data st = .ok (false, st)) ∧
    (∀ (now : Int) (orgID objectType objectID : String) (data : Bytes) (st : StorageState)
        (obj : Object),
      fetchObject (createObjectCollectionID orgID objectType objectID) st.objects = some obj →
      ∃ st2, storeObjectData now orgID objectType objectID data st = .ok (true, st2) ∧
        mapLookup (createObjectCollectionID orgID objectType objectID) st2.files = some data ∧
        ∃ obj2, fetchObject (createObjectCollectionID orgID objectType objectID) st2.objects
            = some obj2 ∧
          obj2.metaData.objectSize = (data.length : Int) ∧
          obj2.status = (if obj.status = notReadyToSend then readyToSend else obj.status) ∧
          obj2.metaData.instanceID =
            (if obj.status = readyToSend then now else obj.metaData.instanceID)) := by
  constructor
  · intro now orgID objectType objectID data st hfetch
    simp only [storeObjectData, hfetch]
  · intro now orgID objectType objectID data st obj hfetch
    by_cases h1 : obj.status = notReadyToSend
    · refine ⟨_, by simp only [storeObjectData, hfetch, if_pos h1]; rfl, ?_, ?_⟩
      · exact mapLookup_mapInsert_self _ data st.files
      · have hf1 := fetchObject_updateObjectsById
          (createObjectCollectionID orgID objectType objectID)
          (fun o => { o with status := readyToSend, lastUpdate := o.lastUpdate + 1 })
          (fun o => rfl) st.objects obj hfetch
        have hf2 := fetchObject_updateObjectsById
          (createObjectCollectionID orgID objectType objectID)
          (fun o => { o with metaData := { o.metaData with objectSize := (data.length : Int) } })
          (fun o => rfl) _ _ hf1
        refine ⟨_, hf2, rfl, ?_, ?_⟩
        · rw [if_pos h1]
        · rw [if_neg (by rw [h1]; decide)]
    · by_cases h2 : obj.status = readyToSend
      · refine ⟨_, by simp only [storeObjectData, hfetch, if_neg h1, if_pos h2]; rfl, ?_, ?_⟩
        · exact mapLookup_mapInsert_self _ data st.files
        · have hf1 := fetchObject_updateObjectsById
            (createObjectCollectionID orgID objectType objectID)
            (fun o => { o with metaData := { o.metaData with instanceID := now },
                               lastUpdate := o.lastUpdate + 1 })
            (fun o => rfl) st.objects obj hfetch
          have hf2 := fetchObject_updateObjectsById
            (createObjectCollectionID orgID objectType objectID)
            (fun o => { o with metaData := { o.metaData with objectSize := (data.length : Int) } })
            (fun o => rfl) _ _ hf1
          refine ⟨_, hf2, rfl, ?_, ?_⟩
          · rw [if_neg h1]
          · rw [if_pos h2]
      · refine ⟨_, by simp only [storeObjectData, hfetch, if_neg h1, if_neg h2]; rfl, ?_, ?_⟩
        · exact mapLookup_mapInsert_self _ data st.files
        · have hf2 := fetchObject_updateObjectsById
            (createObjectCollectionID orgID objectType objectID)
            (fun o => { o with metaData := { o.metaData with objectSize := (data.length : Int) } })
            (fun o => rfl) st.objects obj hfetch
          refine ⟨_, hf2, rfl, ?_, ?_⟩
          · rw [if_neg h1]
          · rw [if_neg h2]

/-- Witness for C5: a ReadyToSend object gets its payload replaced, its
size set and a fresh instance id; a missing object reports false. -/
theorem storeObjectData_spec_witness :
    storeObjectData 77 "o" "t" "missing" [5] ⟨[], [], []⟩ = .ok (false, ⟨[], [], []⟩) ∧
    ∃ st2, storeObjectData 77 "o" "t" "i" [5, 6] ⟨[⟨"o:t:i",
        ⟨"o", "t", "i", "", "", 1, false, false, false, none, 3, 0⟩, readyToSend,
        1, 1, [], 0⟩], [], []⟩ = .ok (true, st2) ∧
      mapLookup (createObjectCollectionID "o" "t" "i") st2.files = some [5, 6] ∧
      ∃ obj2, fetchObject (createObjectCollectionID "o" "t" "i") st2.objects = some obj2 ∧
        obj2.metaData.objectSize = (([5, 6] : Bytes).length : Int) ∧
        obj2.status = (if readyToSend = notReadyToSend then readyToSend else readyToSend) ∧
        obj2.metaData.instanceID = (if readyToSend = readyToSend then 77 else 3) :=
  ⟨storeObjectData_spec.1 77 "o" "t" "missing" [5] ⟨[], [], []⟩ (by rfl),
   storeObjectData_spec.2 77 "o" "t" "i" [5, 6] _
     ⟨"o:t:i", ⟨"o", "t", "i", "", "", 1, false, false, false, none, 3, 0⟩, readyToSend,
       1, 1, [], 0⟩ (by rfl)⟩

/-- C9: a successful StoreObject writes the document with
remainingReceivers set to metadata.expectedConsumers, the same value as
remainingConsumers, while ResetObjectRemainingConsumers resets only
remainingConsumers to metadata.expectedConsumers and leaves
remainingReceivers (and the rest of the document) unchanged. -/
theorem storeObject_receivers_vs_reset :
    (∀ (now : Int) (table : List Destination) (md : MetaData) (data : Option Bytes)
        (status : String) (st : StorageState),
      ∃ obj2, fetchObject (createObjectCollectionID md.destOrgID md.objectType md.objectID)
          (storeObject now table md data status st).objects = some obj2 ∧
        obj2.remainingReceivers = md.expectedConsumers ∧
        obj2.remainingConsumers = md.expectedConsumers) ∧
    (∀ (orgID objectType objectID : String) (st : StorageState) (obj : Object),
      fetchObject (createObjectCollectionID orgID objectType objectID) st.objects = some obj →
      ∃ st2, resetObjectRemainingConsumers orgID objectType objectID st = .ok st2 ∧
        ∃ obj2, fetchObject (createObjectCollectionID orgID objectType objectID) st2.objects
            = some obj2 ∧
          obj2.remainingConsumers = obj.metaData.expectedConsumers ∧
          obj2.remainingReceivers = obj.remainingReceivers ∧
          obj2.metaData = obj.metaData ∧ obj2.status = obj.status ∧
          obj2.destinations = obj.destinations) := by
  constructor
  · intro now table md data status st
    obtain ⟨obj2, hfetch, hmd, hst, hrc, hrr, hds⟩ :=
      fetchObject_upsertObject
        { id := createObjectCollectionID md.destOrgID md.objectType md.objectID,
          metaData := if status = notReadyToSend ∨ status = readyToSend
                      then { md with instanceID := now } else md,
          status := status,
          remainingConsumers := md.expectedConsumers,
          remainingReceivers := md.expectedConsumers,
          destinations := if status = notReadyToSend ∨ status = readyToSend
                          then createDestinations table
                            (if status = notReadyToSend ∨ status = readyToSend
                             then { md with instanceID := now } else md)
                          else [],
          lastUpdate := 0 }
        st.objects
    exact ⟨obj2, hfetch, hrr, hrc⟩
  · intro orgID objectType objectID st obj hfetch
    refine ⟨_, by simp only [resetObjectRemainingConsumers, hfetch]; rfl, ?_⟩
    have hf := fetchObject_updateObjectsById
        (createObjectCollectionID orgID objectType objectID)
        (fun o => { o with remainingConsumers := obj.metaData.expectedConsumers,
                           lastUpdate := o.lastUpdate + 1 })
        (fun o => rfl) st.objects obj hfetch
    exact ⟨_, hf, rfl, rfl, rfl, rfl, rfl⟩

/-- Witness for C9 at a concrete object. -/
theorem storeObject_receivers_vs_reset_witness :
    (∃ obj2, fetchObject (createObjectCollectionID "o" "t" "i")
        (storeObject 4 [] ⟨"o", "t", "i", "", "", 7, false, false, false, none, 0, 0⟩
          (some [1]) readyToSend ⟨[], [], []⟩).objects = some obj2 ∧
      obj2.remainingReceivers = 7 ∧ obj2.remainingConsumers = 7) ∧
    (∃ st2, resetObjectRemainingConsumers "o" "t" "i" ⟨[⟨"o:t:i",
        ⟨"o", "t", "i", "", "", 7, false, false, false, none, 0, 0⟩, readyToSend,
        3, 5, [], 0⟩], [], []⟩ = .ok st2 ∧
      ∃ obj2, fetchObject (createObjectCollectionID "o" "t" "i") st2.objects = some obj2 ∧
        obj2.remainingConsumers = 7 ∧ obj2.remainingReceivers = 5 ∧
        obj2.metaData = ⟨"o", "t", "i", "", "", 7, false, false, false, none, 0, 0⟩ ∧
        obj2.status = readyToSend ∧ obj2.destinations = []) :=
  ⟨storeObject_receivers_vs_reset.1 4 []
     ⟨"o", "t", "i", "", "", 7, false, false, false, none, 0, 0⟩ (some [1]) readyToSend
     ⟨[], [], []⟩,
   storeObject_receivers_vs_reset.2 "o" "t" "i" _
     ⟨"o:t:i", ⟨"o", "t", "i", "", "", 7, false, false, false, none, 0, 0⟩, readyToSend,
       3, 5, [], 0⟩ (by rfl)⟩

/-- C10: UpdateObjectDeliveryStatus called with both the status and the
message empty returns nil immediately and leaves all stored state
unchanged, for every state and identifiers — no object is read or
written, no error is returned even when the object or destination does
not exist, and the destinations list and last-update token are
untouched. -/
theorem updateObjectDeliveryStatus_noop_on_empty
    (now : Nat) (orgID objectType objectID destType destID : String) (db : List Object) :
    updateObjectDeliveryStatus now "" "" orgID objectType objectID destType destID db
      = .ok db := by
  simp [updateObjectDeliveryStatus]

end EdgeSync

namespace EdgeSync

/-- C4: UpdateLeader updates the singleton leader document only when the
stored version equals the observed version, then setting the uuid,
refreshing the heartbeat timestamp, setting the timeout from
configuration and bumping the version, with success true; on a version
mismatch it returns success false with a nil error and the document is
unchanged.  Consequently the document version is monotonically
non-decreasing across InsertInitialLeader and UpdateLeader calls. -/
theorem updateLeader_version_guard :
    (∀ (cfg : Int) (now : Nat) (uuid : String) (v : Int) (doc : LeaderDoc),
      doc.version = v →
      updateLeader cfg now uuid v (some doc)
        = ((true, none), some ⟨uuid, now, cfg, v + 1⟩)) ∧
    (∀ (cfg : Int) (now : Nat) (uuid : String) (v : Int) (doc : LeaderDoc),
      doc.version ≠ v →
      updateLeader cfg now uuid v (some doc) = ((false, none), some doc)) ∧
    (∀ (cfg : Int) (ops : List LeaderOp) (doc : LeaderDoc),
      ∃ doc2, runLeaderOps cfg ops (some doc) = some doc2 ∧
        doc.version ≤ doc2.version) := by
  refine ⟨?_, ?_, ?_⟩
  · intro cfg now uuid v doc hv
    simp [updateLeader, hv]
  · intro cfg now uuid v doc hv
    simp [updateLeader, hv]
  · intro cfg ops
    induction ops with
    | nil => intro doc; exact ⟨doc, rfl, le_refl _⟩
    | cons op rest ih =>
      intro doc
      cases op with
      | insert uuid =>
        obtain ⟨doc2, hrun, hle⟩ := ih doc
        refine ⟨doc2, ?_, hle⟩
        simpa [runLeaderOps, leaderStep, insertInitialLeader] using hrun
      | takeover uuid v now =>
        by_cases hv : doc.version = v
        · obtain ⟨doc2, hrun, hle⟩ := ih ⟨uuid, now, cfg, v + 1⟩
          refine ⟨doc2, ?_, ?_⟩
          · simpa [runLeaderOps, leaderStep, updateLeader, hv] using hrun
          · have hle2 : v + 1 ≤ doc2.version := hle
            omega
        · obtain ⟨doc2, hrun, hle⟩ := ih doc
          refine ⟨doc2, ?_, hle⟩
          simpa [runLeaderOps, leaderStep, updateLeader, hv] using hrun

/-- Witness for C4: node B takes the lease over node A at version 1; a
second takeover against the stale version fails and changes nothing;
bootstrap plus takeover keeps the version non-decreasing. -/
theorem updateLeader_version_guard_witness :
    updateLeader 30 5 "B" 1 (some ⟨"A", 0, 30, 1⟩) = ((true, none), some ⟨"B", 5, 30, 2⟩) ∧
    updateLeader 30 6 "A" 1 (some ⟨"B", 5, 30, 2⟩) = ((false, none), some ⟨"B", 5, 30, 2⟩) ∧
    ∃ doc2, runLeaderOps 30 [.insert "B", .takeover "B" 1 5] (some ⟨"A", 0, 30, 1⟩)
        = some doc2 ∧ (1 : Int) ≤ doc2.version :=
  ⟨updateLeader_version_guard.1 30 5 "B" 1 ⟨"A", 0, 30, 1⟩ rfl,
   updateLeader_version_guard.2.1 30 6 "A" 1 ⟨"B", 5, 30, 2⟩ (by decide),
   updateLeader_version_guard.2.2 30 [.insert "B", .takeover "B" 1 5] ⟨"A", 0, 30, 1⟩⟩

/-- C6 (amended): a random-access read at offset exactly the blob size
produces zero bytes, eof true and no error on both backends;
ReadObjectData additionally returns an empty slice, while GetDataChunk
returns the zero-filled `ReadAt` buffer of the requested size (empty
only when the requested size is 0). -/
theorem read_at_end_of_blob :
    (∀ (file : Bytes) (size : Nat),
      getDataChunk file size file.length = .ok (List.replicate size 0, true, 0)) ∧
    (∀ (orgID objectType objectID : String) (size : Nat) (st : StorageState) (blob : Bytes),
      mapLookup (createObjectCollectionID orgID objectType objectID) st.files = some blob →
      readObjectDataS orgID objectType objectID size blob.length st = .ok ([], true, 0)) := by
  constructor
  · intro file size
    simp only [getDataChunk, Nat.sub_self, Nat.min_zero]
    by_cases hs : size = 0
    · subst hs
      simp
    · rw [if_neg (by omega)]
      simp
  · intro orgID objectType objectID size st blob hlook
    simp [readObjectDataS, hlook, readObjectData]

/-- Witness for C6 (amended) at a three-byte blob. -/
theorem read_at_end_of_blob_witness :
    getDataChunk [7, 8, 9] 2 3 = .ok (List.replicate 2 0, true, 0) ∧
    readObjectDataS "o" "t" "i" 4 3 ⟨[], [("o:t:i", [7, 8, 9])], []⟩ = .ok ([], true, 0) :=
  ⟨read_at_end_of_blob.1 [7, 8, 9] 2,
   read_at_end_of_blob.2 "o" "t" "i" 4 ⟨[], [("o:t:i", [7, 8, 9])], []⟩ [7, 8, 9] (by rfl)⟩

/-- Counterexample for C6 as stated: on the file backend, GetDataChunk
at offset equal to the blob size with a positive requested chunk size
returns the zero-filled buffer of that size — a slice of length 2 here —
not an empty slice. -/
theorem getDataChunk_at_end_not_empty :
    getDataChunk [7, 8, 9] 2 3 = .ok ([0, 0], true, 0) ∧ ([0, 0] : Bytes) ≠ [] := by
  exact ⟨rfl, by decide⟩

/-- C7 (amended): RetrieveNotifications with a destination given returns
exactly the notifications of that destination whose status is Update,
Received, Consumed, Getdata, Delete or Deleted, with Data and
ReceivedByDestination added exactly when retrieveReceived is set; with
no destination given it returns exactly those with status Getdata or
with resend time due and status Update, Received, Consumed, Data,
Delete or Deleted. -/
theorem retrieveNotifications_filter (now : Int) (orgID destType destID : String)
    (rr : Bool) (db : List Notification) (n : Notification) :
    n ∈ retrieveNotifications now orgID destType destID rr db ↔
      n ∈ db ∧
      (if destType = "" ∧ destID = "" then
        n.status = getdataStatus ∨
          (n.resendTime ≤ now ∧
            n.status ∈ [updateStatus, receivedStatus, consumedStatus, dataStatus,
              deleteStatus, deletedStatus])
      else
        n.destOrgID = orgID ∧ n.destID = destID ∧ n.destType = destType ∧
          (n.status ∈ [updateStatus, receivedStatus, consumedStatus, getdataStatus,
              deleteStatus, deletedStatus] ∨
            (rr = true ∧ (n.status = dataStatus ∨ n.status = receivedByDestination)))) := by
  rw [retrieveNotifications, List.mem_filter]
  refine and_congr_right fun _ => ?_
  by_cases hd : destType = "" ∧ destID = ""
  · simp only [retrieveNotificationsKeep]
    rw [if_pos hd, if_pos hd]
    simp only [Bool.or_eq_true, Bool.and_eq_true, beq_iff_eq, decide_eq_true_eq,
      List.mem_cons, List.not_mem_nil, or_false]
    tauto
  · simp only [retrieveNotificationsKeep]
    rw [if_neg hd, if_neg hd]
    cases rr with
    | true =>
      simp only [if_true, Bool.or_eq_true, Bool.and_eq_true, beq_iff_eq,
        List.mem_cons, List.not_mem_nil, or_false]
      tauto
    | false =>
      simp only [Bool.false_eq_true, if_false, Bool.or_eq_true, Bool.and_eq_true,
        beq_iff_eq, List.mem_cons, List.not_mem_nil, or_false]
      tauto

/-- Counterexample for C7 as stated: a notification with status Data for
a matching destination satisfies the claimed filter with
retrieveReceived false, yet the query returns nothing. -/
theorem retrieveNotifications_data_dropped :
    specKeepWithDest false "o" "t" "d" ⟨"o", "d", "t", "ot", "oi", dataStatus, 0, 0⟩
      = true ∧
    retrieveNotifications 10 "o" "t" "d" false
      [⟨"o", "d", "t", "ot", "oi", dataStatus, 0, 0⟩] = [] := by
  exact ⟨rfl, rfl⟩

end EdgeSync
